import Mathlib

/-!
Verification of the interactive layout/selection/folding state engine of the
`egui_graphs` widget.  The geometry and camera arithmetic of the source
(`graph_view.rs`, `graph.rs`, `state_computed.rs`, `elements/edge.rs`) is
embedded shallowly over exact rational arithmetic: the source's `f32` values
become `ℚ`, 2-D vectors become `Vec2`, and the source's `sqrt`-based distances
are tracked through their squares (with explicit bridging lemmas to
`Real.sqrt`), so that every definition stays executable.

Modules of the crate that are referenced by the sources but absent from the
checked-out tree (the `changes`, `metadata`, old `elements`, `graph_wrapper`
and `subgraphs` modules, and the external `epaint` bezier flattening) are
modelled from the specification; each such definition carries a doc comment
starting with `Modelled from the spec:`.
-/

/-- Exact-rational counterpart of `egui::Vec2` / `egui::Pos2` (the source uses
`f32` components; positions and vectors share one representation here). -/
structure Vec2 where
  x : ℚ
  y : ℚ
deriving DecidableEq

instance : Add Vec2 := ⟨fun a b => ⟨a.x + b.x, a.y + b.y⟩⟩

instance : Sub Vec2 := ⟨fun a b => ⟨a.x - b.x, a.y - b.y⟩⟩

instance : Neg Vec2 := ⟨fun a => ⟨-a.x, -a.y⟩⟩

/-- Componentwise product, as in `egui` (`Vec2 * Vec2`). -/
instance : Mul Vec2 := ⟨fun a b => ⟨a.x * b.x, a.y * b.y⟩⟩

/-- Vector times scalar, as in `egui` (`Vec2 * f32`). -/
instance : HMul Vec2 ℚ Vec2 := ⟨fun v k => ⟨v.x * k, v.y * k⟩⟩

/-- Vector divided by scalar, as in `egui` (`Vec2 / f32`). -/
instance : HDiv Vec2 ℚ Vec2 := ⟨fun v k => ⟨v.x / k, v.y / k⟩⟩

/-- Dot product of two vectors (`egui::Vec2::dot`). -/
def Vec2.dot (a b : Vec2) : ℚ := a.x * b.x + a.y * b.y

/-- Exact-rational counterpart of `egui::Rect` (fields `min`, `max`). -/
structure RectQ where
  min : Vec2
  max : Vec2
deriving DecidableEq

/-- `egui::Rect::size` = `max - min`. -/
def RectQ.size (r : RectQ) : Vec2 := r.max - r.min

/-- `egui::Rect::center` = `min + size / 2` = `(min + max) / 2`. -/
def RectQ.center (r : RectQ) : Vec2 := (r.min + r.max) / (2 : ℚ)

/-- Modelled from the spec: the `metadata` module is absent from `src/`.
Camera/Metadata per spec §3: zoom (positive scalar), pan (2-D offset),
first-frame flag, last computed graph bounding box; the `min_x`/`min_y`/
`max_x`/`max_y` fields are the running bounding-box accumulators used by
`state_computed.rs`. -/
structure Metadata where
  zoom : ℚ
  pan : Vec2
  first_frame : Bool
  graph_bounds : RectQ
  min_x : ℚ
  min_y : ℚ
  max_x : ℚ
  max_y : ℚ

/-- `SCREEN_PADDING` constant of `graph_view.rs` (`0.3`). -/
def SCREEN_PADDING : ℚ := 3 / 10

/-- `ZOOM_STEP` constant of `graph_view.rs` (`0.1`). -/
def ZOOM_STEP : ℚ := 1 / 10

/-- `GraphView::handle_zoom` (graph_view.rs:259-278): given a zoom delta and an
optional anchor, returns the new zoom and the new pan.  The anchor is made
relative to `rect.min`; the rect center is used when no anchor is given. -/
def handle_zoom (rect : RectQ) (delta : ℚ) (zoom_center : Option Vec2)
    (state : Metadata) : ℚ × Vec2 :=
  let center_pos : Vec2 :=
    match zoom_center with
    | some center_pos => center_pos - rect.min
    | none => rect.center - rect.min
  let graph_center_pos := (center_pos - state.pan) / state.zoom
  let factor := 1 + delta
  let new_zoom := state.zoom * factor
  (new_zoom, state.pan + (graph_center_pos * state.zoom - graph_center_pos * new_zoom))

/-- `GraphView::fit_to_screen` (graph_view.rs:197-225): pads the graph bounds
by `SCREEN_PADDING`, picks the minimum of the per-axis zoom factors, routes the
zoom change through `handle_zoom` and recenters the pan. -/
def fit_to_screen (rect : RectQ) (metadata : Metadata) : Metadata :=
  let diag := metadata.graph_bounds.max - metadata.graph_bounds.min
  let graph_size := diag * (1 + SCREEN_PADDING)
  let width := graph_size.x
  let height := graph_size.y
  let canvas_size := rect.size
  let canvas_width := canvas_size.x
  let canvas_height := canvas_size.y
  let zoom_x := canvas_width / width
  let zoom_y := canvas_height / height
  let new_zoom := min zoom_x zoom_y
  let zoom_delta := new_zoom / metadata.zoom - 1
  let new_zoom2 := (handle_zoom rect zoom_delta none metadata).1
  let graph_center :=
    (metadata.graph_bounds.min + metadata.graph_bounds.max) / (2 : ℚ)
  { metadata with
      zoom := new_zoom2
      pan := rect.center - graph_center * new_zoom2 }

/-- The center of the stored graph bounding box, as computed in
`fit_to_screen`. -/
def graph_center (m : Metadata) : Vec2 :=
  (m.graph_bounds.min + m.graph_bounds.max) / (2 : ℚ)

/-- Modelled from the spec: the old `settings` module used by `graph_view.rs`
is absent from `src/` (the present `settings.rs` is a later revision).  The
fields are exactly the configuration options `graph_view.rs` reads
(`node_select`, `node_multiselect`, `node_drag`, `fit_to_screen`,
`zoom_and_pan`), matching the spec §6 option list. -/
structure Settings where
  node_select : Bool
  node_multiselect : Bool
  node_drag : Bool
  fit_to_screen : Bool
  zoom_and_pan : Bool

/-- The per-frame pointer/gesture input consumed by
`GraphView::handle_navigation` (graph_view.rs:227-257): the pinch/scroll zoom
delta reported by `ui.input` (`1` meaning no gesture), the pointer hover
position, whether the response is being dragged, and the frame's drag delta. -/
structure NavInput where
  zoom_delta : ℚ
  hover_pos : Option Vec2
  dragged : Bool
  drag_delta : Vec2

/-- Sign function on `ℚ`, mirroring `f32::signum` on the nonzero values the
source feeds it (`signum` of `1 - delta` with `delta ≠ 1`). -/
def signumQ (q : ℚ) : ℚ := if q < 0 then -1 else if q = 0 then 0 else 1

/-- `GraphView::handle_navigation` (graph_view.rs:227-257).  With fit-to-screen
enabled it refits; otherwise, when zoom-and-pan is enabled, a zoom gesture
(`zoom_delta ≠ 1`) is routed through `handle_zoom` at the hover position, and a
drag of the canvas pans only when no node is currently dragged. -/
def handle_navigation (settings : Settings) (inp : NavInput)
    (state_dragged_node : Option ℕ) (rect : RectQ) (metadata : Metadata) :
    Metadata :=
  if settings.fit_to_screen then fit_to_screen rect metadata
  else if !settings.zoom_and_pan then metadata
  else
    let zp :=
      if inp.zoom_delta = 1 then (metadata.zoom, metadata.pan)
      else
        handle_zoom rect (ZOOM_STEP * signumQ (1 - inp.zoom_delta))
          inp.hover_pos metadata
    let zp2 :=
      if inp.dragged ∧ state_dragged_node = none then
        (zp.1, metadata.pan + inp.drag_delta)
      else zp
    { metadata with zoom := zp2.1, pan := zp2.2 }

/-- Modelled from the spec: the old `elements` node type used by
`graph_view.rs` is absent from `src/`.  Spec §3 Node: location, base radius and
the flags selected/dragged/folded (payload is irrelevant to the claims). -/
structure NodeM where
  location : Vec2
  radius : ℚ
  selected : Bool
  dragged : Bool
  folded : Bool
deriving DecidableEq

/-- Modelled from the spec: the old `elements` edge record as far as the click
handlers need it — only its selected flag matters here. -/
structure EdgeSel where
  selected : Bool
deriving DecidableEq

/-- Modelled from the spec: the `elements` container is absent from `src/`.
Stable-identity lookup maps for nodes and for edges (edges are addressed by a
`(start, end, list-position)` triple, as in `graph_view.rs`). -/
structure Elements where
  node : ℕ → Option NodeM
  edge : ℕ × ℕ × ℕ → Option EdgeSel

/-- `FrameState` as used by the click handlers (`state.rs`: dragged node,
selected node set, selected edge set).  The source stores `HashSet`s whose
iteration order is unspecified; lists fix one iteration order. -/
structure FrameState where
  dragged_node : Option ℕ
  selected_nodes : List ℕ
  selected_edges : List (ℕ × ℕ × ℕ)

/-- Modelled from the spec: the `changes` module is absent from `src/`.  One
change-log entry, per spec §3 (node selected/deselected with before/after
values; edge deselected). -/
inductive Change where
  | selectNode (idx : ℕ) (before after : Bool)
  | deselectNode (idx : ℕ) (before after : Bool)
  | deselectEdge (idx : ℕ × ℕ × ℕ) (before after : Bool)
deriving DecidableEq

/-- Modelled from the spec: `Changes::select_node`.  Per spec §4.6 a click on a
hit node toggles its selection if already selected, otherwise selects it, so
the recorded after-value is the negation of the node's current flag. -/
def select_node_change (idx : ℕ) (n : NodeM) : Change :=
  Change.selectNode idx n.selected (!n.selected)

/-- Modelled from the spec: `Changes::deselect_node` records after = false. -/
def deselect_node_change (idx : ℕ) (n : NodeM) : Change :=
  Change.deselectNode idx n.selected false

/-- `GraphView::deselect_all_nodes` (graph_view.rs:141-146): one deselect entry
per currently selected node, in the frame state's iteration order.  The source
unwraps each lookup (panicking on a dangling identity); missing identities are
skipped here and excluded by hypothesis in the theorems. -/
def deselect_all_nodes (elements : Elements) (state : FrameState) :
    List Change :=
  state.selected_nodes.filterMap fun idx =>
    (elements.node idx).map fun n => deselect_node_change idx n

/-- `GraphView::deselect_all_edges` (graph_view.rs:148-153). -/
def deselect_all_edges (elements : Elements) (state : FrameState) :
    List Change :=
  state.selected_edges.filterMap fun idx =>
    (elements.edge idx).map fun e => Change.deselectEdge idx e.selected false

/-- `GraphView::handle_node_click` (graph_view.rs:131-139): unless multi-select
is enabled, first deselect every selected node and edge, then record the
select-toggle entry for the clicked node. -/
def handle_node_click (settings : Settings) (elements : Elements) (idx : ℕ)
    (state : FrameState) : List Change :=
  let pre :=
    if settings.node_multiselect then []
    else deselect_all_nodes elements state ++ deselect_all_edges elements state
  match elements.node idx with
  | some n => pre ++ [select_node_change idx n]
  | none => pre

/-- `GraphView::handle_clicks` (graph_view.rs:104-129).  The pointer has
already been resolved against the nodes (`node_by_pos`); `hit` is that result.
No entries unless selection is enabled and a click happened; a click on empty
space deselects everything. -/
def handle_clicks (settings : Settings) (elements : Elements) (clicked : Bool)
    (hit : Option ℕ) (state : FrameState) : List Change :=
  if !settings.node_select then []
  else if !clicked then []
  else
    match hit with
    | none => deselect_all_nodes elements state ++ deselect_all_edges elements state
    | some idx => handle_node_click settings elements idx state

/-- `hypot2` (graph.rs:232-234): squared Euclidean distance between `a` and
`b`. -/
def hypot2 (a b : Vec2) : ℚ := (a - b).dot (a - b)

/-- `proj` (graph.rs:237-240): projection of vector `a` onto vector `b`. -/
def proj (a b : Vec2) : Vec2 :=
  let k := a.dot b / b.dot b
  ⟨k * b.x, k * b.y⟩

/-- The clamped parameter `k` computed inside `distance_segment_to_point`
(graph.rs:216-220): the coordinate of the projected point along `ab`, read off
from the larger-magnitude component. -/
def seg_param (a b point : Vec2) : ℚ :=
  let ac := point - a
  let ab := b - a
  let d := a + proj ac ab
  let ad := d - a
  if |ab.x| > |ab.y| then ad.x / ab.x else ad.y / ab.y

/-- `distance_segment_to_point` (graph.rs:208-229) with the final `sqrt`
omitted: the source returns `hypot2(...).sqrt()` of exactly this value, and
`sqrt` is strictly monotone on nonnegatives, so every comparison the source
makes with the distance is mirrored on this square (the bridging lemma is
`pointLtWidth_iff_sqrt`). -/
def distance_segment_to_point_sq (a b point : Vec2) : ℚ :=
  let ac := point - a
  let ab := b - a
  let d := a + proj ac ab
  let k := seg_param a b point
  if k ≤ 0 then hypot2 point a
  else if k ≥ 1 then hypot2 point b
  else hypot2 point d

/-- The mathematical projection parameter of `point` onto the line through `a`
and `b`: `t` with foot `a + t • (b - a)`. -/
def proj_param (a b point : Vec2) : ℚ :=
  (point - a).dot (b - a) / (b - a).dot (b - a)

/-- The orthogonal-projection foot of `point` on the line through `a`, `b`. -/
def proj_foot (a b point : Vec2) : Vec2 :=
  ⟨a.x + proj_param a b point * (b - a).x, a.y + proj_param a b point * (b - a).y⟩

/-- The source's `distance < width` tests compare `sqrt d2 < width`; over `ℚ`
this is equivalent (for the nonnegative squared distances fed to it) to
`0 < width ∧ d2 < width ^ 2`, which keeps the hit tests decidable.  The
equivalence is proved in `pointLtWidth_iff_sqrt`. -/
def pointLtWidth (d2 width : ℚ) : Bool := decide (0 < width ∧ d2 < width ^ 2)

/-- Quadratic bezier point at parameter `t`
(`epaint::QuadraticBezierShape::sample`). -/
def quad_bezier_point (p0 c p1 : Vec2) (t : ℚ) : Vec2 :=
  ⟨(1 - t) ^ 2 * p0.x + 2 * t * (1 - t) * c.x + t ^ 2 * p1.x,
   (1 - t) ^ 2 * p0.y + 2 * t * (1 - t) * c.y + t ^ 2 * p1.y⟩

/-- Cubic bezier point at parameter `t`
(`epaint::CubicBezierShape::sample`). -/
def cubic_bezier_point (p0 c1 c2 p1 : Vec2) (t : ℚ) : Vec2 :=
  ⟨(1 - t) ^ 3 * p0.x + 3 * t * (1 - t) ^ 2 * c1.x + 3 * t ^ 2 * (1 - t) * c2.x
      + t ^ 3 * p1.x,
   (1 - t) ^ 3 * p0.y + 3 * t * (1 - t) ^ 2 * c1.y + 3 * t ^ 2 * (1 - t) * c2.y
      + t ^ 3 * p1.y⟩

/-- Modelled from the spec: `epaint`'s tolerance-driven `flatten` of a
quadratic bezier is external to the repository; per spec §4.1 the curve is
flattened into a polyline before the segment-distance test.  It is modelled as
uniform parameter sampling with four segments (the zoom-dependent tolerance
only changes the sampling density, which the claims do not depend on). -/
def quad_flatten (p0 c p1 : Vec2) : List Vec2 :=
  (List.range 5).map fun k => quad_bezier_point p0 c p1 ((k : ℚ) / 4)

/-- Modelled from the spec: `epaint`'s `flatten` of a cubic (loop) bezier,
modelled as uniform parameter sampling with four segments. -/
def cubic_flatten (p0 c1 c2 p1 : Vec2) : List Vec2 :=
  (List.range 5).map fun k => cubic_bezier_point p0 c1 c2 p1 ((k : ℚ) / 4)

/-- `is_point_on_bezier_curve` (graph.rs:260-272): walk the consecutive pairs
of the flattened polyline and report whether some segment is within the stroke
width of the point.  The source's `distance < width` is realised as
`pointLtWidth` on the squared distance. -/
def is_point_on_bezier_curve (point : Vec2) (width : ℚ) :
    List Vec2 → Bool
  | [] => false
  | [_] => false
  | pp :: p :: rest =>
    pointLtWidth (distance_segment_to_point_sq p pp point) width
      || is_point_on_bezier_curve point width (p :: rest)

/-- Exact rational square root: returns the rational `r ≥ 0` with `r ^ 2 = q`
when one exists, and `0` otherwise (a reduced fraction is a square iff its
numerator and denominator are).  Stands for `f32::sqrt`, which is exact on
these inputs; every concrete input below has a perfect-square squared
length. -/
def ratSqrt (q : ℚ) : ℚ :=
  let n := Nat.sqrt q.num.toNat
  let d := Nat.sqrt q.den
  if 0 ≤ q.num ∧ (n * n : ℤ) = q.num ∧ d * d = q.den then (n : ℚ) / (d : ℚ)
  else 0

/-- `Vec2::length`: Euclidean length of a vector (via `ratSqrt`). -/
def vec2_len (v : Vec2) : ℚ := ratSqrt (v.dot v)

/-- The constant `(PI/4).sin() = (PI/4).cos() = √2/2` used by the self-loop
branch of `edge_by_screen_pos` (graph.rs:80-86), as a fixed rational standing
for the `f32` approximation (the exact value is irrational; no claim below
exercises the self-loop branch). -/
def center_horizon_trig : ℚ := 70710678 / 100000000

/-- The edge payload fields read by `edge_by_screen_pos` (`e.width()`,
`e.curve_size()`). -/
structure EdgeGeom where
  width : ℚ
  curve_size : ℚ
deriving DecidableEq

/-- The node data `edge_by_screen_pos` reads through the graph: a location per
node id, and a screen radius per node id.  `Node::screen_radius` itself lives
in the absent `elements` module; it is kept abstract as a per-node rational,
which is all graph.rs consumes. -/
structure GraphGeom where
  loc : ℕ → Vec2
  screen_radius : ℕ → ℚ

/-- Inner loop of `Graph::edge_by_screen_pos` (graph.rs:65-149) over the edges
of one `(start, end)` pair.  `order` starts at the length of the list and is
decremented before each test: a self-loop is tested against the flattened
cubic loop, the `order = 0` edge against the straight segment between the node
centers, and every other edge against the flattened quadratic curve fanned out
by `curve_size * order`. -/
def edge_hit_in_pair (g : GraphGeom) (zoom : ℚ) (edge_looped_size : ℚ)
    (pos_in_graph : Vec2) (start fin : ℕ) :
    List (ℕ × EdgeGeom) → ℕ → Option ℕ
  | [], _ => none
  | (idx_edge, e) :: rest, order =>
    let pos_start := g.loc start
    let pos_end := g.loc fin
    let order1 := order - 1
    if start = fin then
      let rad := g.screen_radius start / zoom
      let center := pos_start
      let y_intersect := center.y - rad * center_horizon_trig
      let edge_start : Vec2 := ⟨center.x - rad * center_horizon_trig, y_intersect⟩
      let edge_end : Vec2 := ⟨center.x + rad * center_horizon_trig, y_intersect⟩
      let loop_size := rad * (edge_looped_size + (order1 : ℚ))
      let control_point1 : Vec2 := ⟨center.x + loop_size, center.y - loop_size⟩
      let control_point2 : Vec2 := ⟨center.x - loop_size, center.y - loop_size⟩
      if is_point_on_bezier_curve pos_in_graph e.width
          (cubic_flatten edge_end control_point1 control_point2 edge_start) then
        some idx_edge
      else
        edge_hit_in_pair g zoom edge_looped_size pos_in_graph start fin rest order1
    else if order1 = 0 then
      if pointLtWidth (distance_segment_to_point_sq pos_start pos_end pos_in_graph)
          e.width then
        some idx_edge
      else
        edge_hit_in_pair g zoom edge_looped_size pos_in_graph start fin rest order1
    else
      let rad_start := g.screen_radius start / zoom
      let rad_end := g.screen_radius fin / zoom
      let vec := pos_end - pos_start
      let dist := vec2_len vec
      let dir := vec / dist
      let start_node_radius_vec : Vec2 := (⟨rad_start, rad_start⟩ : Vec2) * dir
      let end_node_radius_vec : Vec2 := (⟨rad_end, rad_end⟩ : Vec2) * dir
      let tip_end := pos_start + vec - end_node_radius_vec
      let edge_start := pos_start + start_node_radius_vec
      let dir_perpendicular : Vec2 := ⟨-dir.y, dir.x⟩
      let center_point := (edge_start + tip_end) / (2 : ℚ)
      let control_point :=
        center_point + dir_perpendicular * (e.curve_size * (order1 : ℚ))
      if is_point_on_bezier_curve pos_in_graph e.width
          (quad_flatten edge_start control_point tip_end) then
        some idx_edge
      else
        edge_hit_in_pair g zoom edge_looped_size pos_in_graph start fin rest order1

/-- `Graph::edge_by_screen_pos` (graph.rs:57-153): transform the pointer into
graph space and scan the edge map pair by pair (the source iterates a
`HashMap` in unspecified order; the map is a list here, which fixes one
order — the scenario claims use a single pair, where no order ambiguity
exists). -/
def edge_by_screen_pos (g : GraphGeom) (zoom : ℚ) (pan : Vec2)
    (edge_looped_size : ℚ) (screen_pos : Vec2)
    (edge_map : List ((ℕ × ℕ) × List (ℕ × EdgeGeom))) : Option ℕ :=
  let pos_in_graph := (screen_pos - pan) / zoom
  match edge_map with
  | [] => none
  | ((s, t), edges) :: rest =>
    match edge_hit_in_pair g zoom edge_looped_size pos_in_graph s t edges
        edges.length with
    | some i => some i
    | none => edge_by_screen_pos g zoom pan edge_looped_size screen_pos rest

/-- The node geometry of the C4 scenario: node 0 at the origin, node 1 at
`(10, 0)`, every screen radius 1. -/
def gC4 : GraphGeom := ⟨fun i => if i = 0 then ⟨0, 0⟩ else ⟨10, 0⟩, fun _ => 1⟩

/-- The edge payload of the C4 scenario: stroke width 1, curve size 10. -/
def eC4 : EdgeGeom := ⟨1, 10⟩

/-- The multigraph as `state_computed.rs` sees it through the graph wrapper: a
directedness flag, node ids, and edges as `(edge id, source id, target id)`
triples (petgraph's stable arena indices become plain naturals). -/
structure GraphM where
  directed : Bool
  nodeIds : List ℕ
  edgeTriples : List (ℕ × ℕ × ℕ)
deriving DecidableEq

/-- `Graph::edges_num` (graph.rs:193-195), i.e. `StableGraph::edges(idx)
.count()`: per petgraph's documented semantics this counts only the outgoing
edges of `idx` in a directed graph, and all incident edges in an undirected
one. -/
def edges_num (g : GraphM) (idx : ℕ) : ℕ :=
  if g.directed then (g.edgeTriples.filter fun e => e.2.1 = idx).length
  else (g.edgeTriples.filter fun e => e.2.1 = idx || e.2.2 = idx).length

/-- The count of edges incident to `idx` (either endpoint), which is what the
spec's words `count of edges incident to a node` describe; kept separate from
`edges_num` so the two can be compared. -/
def incident_edges_num (g : GraphM) (idx : ℕ) : ℕ :=
  (g.edgeTriples.filter fun e => e.2.1 = idx || e.2.2 = idx).length

/-- Modelled from the spec: the neighbor set used by the bounded walk of the
absent `subgraphs`/`graph_wrapper` modules; spec §4.3 walks `following a
configurable direction (both/out/in)` — the claims only need the walk itself,
modelled in the `both` direction. -/
def neighbors (g : GraphM) (idx : ℕ) : List ℕ :=
  g.edgeTriples.filterMap fun e =>
    if e.2.1 = idx then some e.2.2
    else if e.2.2 = idx then some e.2.1
    else none

/-- One breadth-first expansion step: the not-yet-visited neighbors of the
frontier, deduplicated. -/
def walk_step (g : GraphM) (visited frontier : List ℕ) : List ℕ :=
  ((frontier.flatMap (neighbors g)).filter fun n => !(visited.contains n)).dedup

/-- Modelled from the spec: the bounded breadth-first walk of §4.3, with a
visited-set guard for cycle safety, recursing on the remaining depth. -/
def walk_aux (g : GraphM) : ℕ → List ℕ → List ℕ → List ℕ
  | 0, visited, _ => visited
  | d + 1, visited, frontier =>
    let next := walk_step g visited frontier
    walk_aux g d (visited ++ next) next

/-- Modelled from the spec: the node set of the induced reachable subgraph of
`root` up to `depth` (§3 Subgraph record / §4.3); the root is always a
member. -/
def walk_nodes (g : GraphM) (root : ℕ) (depth : ℕ) : List ℕ :=
  walk_aux g depth [root] [root]

/-- Modelled from the spec: the edge ids of the induced subgraph — the edges
whose two endpoints were both reached by the walk. -/
def walk_edges (g : GraphM) (root : ℕ) (depth : ℕ) : List ℕ :=
  (g.edgeTriples.filter fun e =>
      (walk_nodes g root depth).contains e.2.1
        && (walk_nodes g root depth).contains e.2.2).map (·.1)

/-- Modelled from the spec: the `SubGraphs` registry (absent `subgraphs`
module) — a mapping from root id to the stored node/edge sets (§4.4). -/
def SubGraphs : Type := ℕ → Option (List ℕ × List ℕ)

/-- Modelled from the spec: `SubGraphs::add_subgraph` performs the bounded walk
and stores the node/edge sets, overwriting any prior record for that root
(§4.4); a negative depth (`i32` in the source) stores via `Int.toNat`. -/
def add_subgraph (sg : SubGraphs) (g : GraphM) (root : ℕ) (depth : ℤ) :
    SubGraphs :=
  fun r =>
    if r = root then some (walk_nodes g root depth.toNat, walk_edges g root depth.toNat)
    else sg r

/-- Modelled from the spec: `SubGraphs::elements_by_root` returns the stored
sets, or nothing when the root has no record (§4.4). -/
def elements_by_root (sg : SubGraphs) (root : ℕ) : Option (List ℕ × List ℕ) :=
  sg root

/-- `StateComputedNode` (state_computed.rs:175-194): per-node derived state;
`radius` defaults to `5.`. -/
structure StateComputedNode where
  selected_child : Bool
  selected_parent : Bool
  folded_child : Bool
  num_folded : ℕ
  radius : ℚ
deriving DecidableEq

/-- The `Default` instance of `StateComputedNode` (flags cleared, radius 5). -/
def StateComputedNode.default : StateComputedNode :=
  ⟨false, false, false, 0, 5⟩

/-- `StateComputedNode::subfolded` (state_computed.rs:201-203). -/
def StateComputedNode.subfolded (s : StateComputedNode) : Bool :=
  s.folded_child

/-- `StateComputedEdge` (state_computed.rs:214-218). -/
structure StateComputedEdge where
  selected_child : Bool
  selected_parent : Bool
deriving DecidableEq

/-- The `Default` instance of `StateComputedEdge`. -/
def StateComputedEdge.default : StateComputedEdge := ⟨false, false⟩

/-- `StateComputed` (state_computed.rs:14-20): the frame-local derived-state
cache; the node and edge `HashMap`s become optional-valued functions. -/
structure StateComputed where
  dragged : Option ℕ
  selections : SubGraphs
  foldings : SubGraphs
  nodes : ℕ → Option StateComputedNode
  edges : ℕ → Option StateComputedEdge

/-- `HashMap::entry(idx).or_default()` read side: the stored entry or the
default one. -/
def nodeEntryOr (m : ℕ → Option StateComputedNode) (idx : ℕ) :
    StateComputedNode :=
  (m idx).getD StateComputedNode.default

/-- Point update of the node map. -/
def setNode (m : ℕ → Option StateComputedNode) (idx : ℕ)
    (v : StateComputedNode) : ℕ → Option StateComputedNode :=
  fun i => if i = idx then some v else m i

/-- Point update of the edge map. -/
def setEdge (m : ℕ → Option StateComputedEdge) (idx : ℕ)
    (v : StateComputedEdge) : ℕ → Option StateComputedEdge :=
  fun i => if i = idx then some v else m i

/-- The fields of the current (post-rewrite) `Node` read by
`state_computed.rs` (`n.dragged()`, `n.selected()`, `n.folded()`,
`n.location()`); the node type itself lives in the absent `elements` module of
that revision. -/
structure NodeData where
  location : Vec2
  selected : Bool
  dragged : Bool
  folded : Bool
deriving DecidableEq

/-- `SettingsInteraction` as read by `compute_for_node`: `selection_depth`
(an `i32` in the source) and `folding_depth` (a `usize`). -/
structure SettingsInteractionM where
  selection_depth : ℤ
  folding_depth : ℕ
deriving DecidableEq

/-- `SettingsStyle` as read by `compute_for_node`: `edge_radius_weight` and
`folded_node_radius_weight`. -/
structure SettingsStyleM where
  edge_radius_weight : ℚ
  folded_node_radius_weight : ℚ
deriving DecidableEq

/-- The node-marking loop of `StateComputed::compute_selection`
(state_computed.rs:108-119): every walked node except the root gets its
`selected_child`/`selected_parent` flag set (entry created on demand). -/
def mark_selected_nodes (root : ℕ) (child_mode : Bool)
    (st : StateComputed) (l : List ℕ) : StateComputed :=
  l.foldl
    (fun acc idx =>
      if idx = root then acc
      else
        let c := nodeEntryOr acc.nodes idx
        let c2 :=
          if child_mode then { c with selected_child := true }
          else { c with selected_parent := true }
        { acc with nodes := setNode acc.nodes idx c2 })
    st

/-- The edge-marking loop of `StateComputed::compute_selection`
(state_computed.rs:121-128). -/
def mark_selected_edges (child_mode : Bool) (st : StateComputed)
    (l : List ℕ) : StateComputed :=
  l.foldl
    (fun acc idx =>
      let c := (acc.edges idx).getD StateComputedEdge.default
      let c2 :=
        if child_mode then { c with selected_child := true }
        else { c with selected_parent := true }
      { acc with edges := setEdge acc.edges idx c2 })
    st

/-- `StateComputed::compute_selection` (state_computed.rs:87-129). -/
def compute_selection (g : GraphM) (st : StateComputed) (root_idx : ℕ)
    (root : NodeData) (child_mode : Bool) (depth : ℤ) : StateComputed :=
  if !root.selected then st
  else
    let st1 := { st with selections := add_subgraph st.selections g root_idx depth }
    match elements_by_root st1.selections root_idx with
    | none => st1
    | some (nodes, edges) =>
      mark_selected_edges child_mode
        (mark_selected_nodes root_idx child_mode st1 nodes) edges

/-- The member-marking loop of `StateComputed::compute_folding`
(state_computed.rs:157-163): every walked node except the root is marked
`folded_child`. -/
def mark_folded_children (root : ℕ) (st : StateComputed) (l : List ℕ) :
    StateComputed :=
  l.foldl
    (fun acc idx =>
      if idx = root then acc
      else
        let c := nodeEntryOr acc.nodes idx
        { acc with nodes := setNode acc.nodes idx { c with folded_child := true } })
    st

/-- `StateComputed::compute_folding` (state_computed.rs:131-164): when the root
is folded, register its folding subgraph, set the root's
folded-descendant-count to the walked-node count minus one, and mark every
non-root member as a folded child.  (The source's `usize::MAX → i32::MAX`
depth normalization is an artifact of its fixed-width integers; depths are
unbounded naturals here.) -/
def compute_folding (g : GraphM) (st : StateComputed) (root_idx : ℕ)
    (root : NodeData) (depth : ℕ) : StateComputed :=
  if !root.folded then st
  else
    let st1 := { st with foldings := add_subgraph st.foldings g root_idx (depth : ℤ) }
    match elements_by_root st1.foldings root_idx with
    | none => st1
    | some (nodes, _) =>
      let c := nodeEntryOr st1.nodes root_idx
      let st2 :=
        { st1 with nodes := setNode st1.nodes root_idx { c with num_folded := nodes.length - 1 } }
      mark_folded_children root_idx st2 nodes

/-- The `entry(idx).or_default()` step of `compute_for_node`
(state_computed.rs:36): materialize the node's computed entry. -/
def cfn_entry (st : StateComputed) (idx : ℕ) : StateComputed :=
  { st with
      nodes := fun i =>
        if i = idx then some (nodeEntryOr st.nodes idx) else st.nodes i }

/-- The dragged-node recording step of `compute_for_node`
(state_computed.rs:42-44). -/
def cfn_dragged (st : StateComputed) (idx : ℕ) (n : NodeData) :
    StateComputed :=
  if n.dragged then { st with dragged := some idx } else st

/-- `StateComputed::compute_for_node` (state_computed.rs:27-85): ensure the
entry exists, accumulate the radius addition from the edge count, record the
dragged node, run selection and folding, add the folded-count contribution,
bump the radius, and widen the running bounding box by location ± screen
radius. -/
def compute_for_node (g : GraphM) (meta : Metadata) (st : StateComputed)
    (idx : ℕ) (n : NodeData) (si : SettingsInteractionM)
    (ss : SettingsStyleM) : StateComputed × Metadata :=
  let st0 := cfn_entry st idx
  let num := edges_num g idx
  let radius_addition := ss.edge_radius_weight * (num : ℚ)
  let st1 := cfn_dragged st0 idx n
  let st2 :=
    compute_selection g st1 idx n (decide (0 < si.selection_depth))
      si.selection_depth
  let st3 := compute_folding g st2 idx n si.folding_depth
  let radius_addition2 :=
    radius_addition + ((nodeEntryOr st3.nodes idx).num_folded : ℚ) * ss.folded_node_radius_weight
  let c := nodeEntryOr st3.nodes idx
  let st4 := { st3 with nodes := setNode st3.nodes idx { c with radius := c.radius + radius_addition2 } }
  let comp := nodeEntryOr st4.nodes idx
  let r := comp.radius * meta.zoom
  let m1 := if n.location.x - r < meta.min_x then { meta with min_x := n.location.x - r } else meta
  let m2 := if n.location.y - r < m1.min_y then { m1 with min_y := n.location.y - r } else m1
  let m3 := if n.location.x + r > m2.max_x then { m2 with max_x := n.location.x + r } else m2
  let m4 := if n.location.y + r > m3.max_y then { m3 with max_y := n.location.y + r } else m3
  (st4, m4)

/-- The state after the entry/dragged/selection/folding steps of
`compute_for_node`, before the radius bump (a proof-structuring abbreviation
of the chain inside `compute_for_node`). -/
def cfn_st3 (g : GraphM) (st : StateComputed) (idx : ℕ) (n : NodeData)
    (si : SettingsInteractionM) : StateComputed :=
  compute_folding g
    (compute_selection g (cfn_dragged (cfn_entry st idx) idx n) idx n
      (decide (0 < si.selection_depth)) si.selection_depth)
    idx n si.folding_depth

/-- `StateComputedNode::inc_radius` (state_computed.rs:209-211). -/
def bump_radius (c : StateComputedNode) (add : ℚ) : StateComputedNode :=
  { c with radius := c.radius + add }

/-- `EdgeID` (elements/edge.rs:6-11): stable edge index plus sibling order. -/
structure EdgeID where
  idx : ℕ
  order : ℕ
deriving DecidableEq

/-- `EdgeID::new` (elements/edge.rs:14-19): order defaults to 0. -/
def EdgeID.new (idx : ℕ) : EdgeID := ⟨idx, 0⟩

/-- `EdgeID::with_order` (elements/edge.rs:21-24). -/
def EdgeID.with_order (e : EdgeID) (order : ℕ) : EdgeID :=
  { e with order := order }

/-- `Edge` (elements/edge.rs:29-36): the identity is `None` until bound. -/
structure EdgeP (E : Type) where
  id : Option EdgeID
  payload : Option E
  selected : Bool

/-- `Edge::new` (elements/edge.rs:39-46): fresh edge with no identity. -/
def EdgeP.new {E : Type} (payload : E) : EdgeP E :=
  ⟨none, some payload, false⟩

/-- `Edge::bind` (elements/edge.rs:49-52): attach the identity and sibling
order. -/
def EdgeP.bind {E : Type} (e : EdgeP E) (idx : ℕ) (order : ℕ) : EdgeP E :=
  { e with id := some ((EdgeID.new idx).with_order order) }

/-- `Edge::id` (elements/edge.rs:54-56): the source unwraps the option and
panics when the edge is unbound; the panic is modelled by `none`. -/
def EdgeP.get_id {E : Type} (e : EdgeP E) : Option EdgeID := e.id

/-- `Edge::order` (elements/edge.rs:59-61): unwraps; `none` models the
panic. -/
def EdgeP.get_order {E : Type} (e : EdgeP E) : Option ℕ :=
  e.id.map (·.order)

/-- `Edge::set_order` (elements/edge.rs:64-66): unwraps the identity before
mutating it; `none` models the panic on an unbound edge. -/
def EdgeP.set_order {E : Type} (e : EdgeP E) (order : ℕ) : Option (EdgeP E) :=
  e.id.map fun i => { e with id := some { i with order := order } }

theorem Vec2.add_x (a b : Vec2) : (a + b).x = a.x + b.x := rfl

theorem Vec2.add_y (a b : Vec2) : (a + b).y = a.y + b.y := rfl

theorem Vec2.sub_x (a b : Vec2) : (a - b).x = a.x - b.x := rfl

theorem Vec2.sub_y (a b : Vec2) : (a - b).y = a.y - b.y := rfl

theorem Vec2.mul_x (a b : Vec2) : (a * b).x = a.x * b.x := rfl

theorem Vec2.mul_y (a b : Vec2) : (a * b).y = a.y * b.y := rfl

theorem Vec2.smul_x (a : Vec2) (k : ℚ) : (a * k).x = a.x * k := rfl

theorem Vec2.smul_y (a : Vec2) (k : ℚ) : (a * k).y = a.y * k := rfl

theorem Vec2.div_x (a : Vec2) (k : ℚ) : (a / k).x = a.x / k := rfl

theorem Vec2.div_y (a : Vec2) (k : ℚ) : (a / k).y = a.y / k := rfl

theorem Vec2.eq_iff (a b : Vec2) : a = b ↔ a.x = b.x ∧ a.y = b.y := by
  constructor
  · intro h; exact ⟨by rw [h], by rw [h]⟩
  · intro h
    cases a
    cases b
    simp only [Vec2.mk.injEq]
    exact ⟨h.1, h.2⟩

attribute [simp] Vec2.add_x Vec2.add_y Vec2.sub_x Vec2.sub_y Vec2.mul_x
  Vec2.mul_y Vec2.smul_x Vec2.smul_y Vec2.div_x Vec2.div_y

/-- C1 (amended).  Zoom anchor invariance of `handle_zoom`: for every camera
state with positive zoom, every anchor point and every zoom delta whose factor
`1 + delta` is nonzero, the returned zoom is `old_zoom * (1 + delta)` and the
returned pan keeps the anchor's graph-space position invariant:
`(anchor_screen - new_pan) / new_zoom = (anchor_screen - old_pan) / old_zoom`,
where `anchor_screen` is the anchor made rect-relative as the source does.
(The claim's unrestricted `every zoom delta` fails at `delta = -1`, where the
new zoom is zero — see the counterexample.) -/
theorem handle_zoom_anchor_invariant (rect : RectQ) (delta : ℚ) (anchor : Vec2)
    (m : Metadata) (hz : 0 < m.zoom) (hd : 1 + delta ≠ 0) :
    (handle_zoom rect delta (some anchor) m).1 = m.zoom * (1 + delta) ∧
    ((anchor - rect.min) - (handle_zoom rect delta (some anchor) m).2) /
        (handle_zoom rect delta (some anchor) m).1 =
      ((anchor - rect.min) - m.pan) / m.zoom := by
  have hz' : m.zoom ≠ 0 := ne_of_gt hz
  refine ⟨rfl, ?_⟩
  rw [Vec2.eq_iff]
  constructor
  · show ((anchor - rect.min) - (m.pan + _)).x / (m.zoom * (1 + delta)) = _
    simp only [Vec2.add_x, Vec2.sub_x, Vec2.smul_x, Vec2.div_x]
    field_simp
    ring
  · show ((anchor - rect.min) - (m.pan + _)).y / (m.zoom * (1 + delta)) = _
    simp only [Vec2.add_y, Vec2.sub_y, Vec2.smul_y, Vec2.div_y]
    field_simp
    ring

/-- C1 witness: the invariance theorem applied at a concrete camera state,
delta and anchor. -/
theorem handle_zoom_anchor_invariant_witness :
    (handle_zoom ⟨⟨0, 0⟩, ⟨8, 6⟩⟩ (1 / 10) (some ⟨3, 2⟩)
        ⟨2, ⟨1, 1⟩, false, ⟨⟨0, 0⟩, ⟨0, 0⟩⟩, 0, 0, 0, 0⟩).1 =
      2 * (1 + 1 / 10) ∧
    (((⟨3, 2⟩ : Vec2) - (⟨0, 0⟩ : Vec2)) -
        (handle_zoom ⟨⟨0, 0⟩, ⟨8, 6⟩⟩ (1 / 10) (some ⟨3, 2⟩)
            ⟨2, ⟨1, 1⟩, false, ⟨⟨0, 0⟩, ⟨0, 0⟩⟩, 0, 0, 0, 0⟩).2) /
        (handle_zoom ⟨⟨0, 0⟩, ⟨8, 6⟩⟩ (1 / 10) (some ⟨3, 2⟩)
            ⟨2, ⟨1, 1⟩, false, ⟨⟨0, 0⟩, ⟨0, 0⟩⟩, 0, 0, 0, 0⟩).1 =
      (((⟨3, 2⟩ : Vec2) - (⟨0, 0⟩ : Vec2)) - (⟨1, 1⟩ : Vec2)) / (2 : ℚ) :=
  handle_zoom_anchor_invariant ⟨⟨0, 0⟩, ⟨8, 6⟩⟩ (1 / 10) ⟨3, 2⟩
    ⟨2, ⟨1, 1⟩, false, ⟨⟨0, 0⟩, ⟨0, 0⟩⟩, 0, 0, 0, 0⟩ (by norm_num) (by norm_num)

/-- C1 counterexample.  At `delta = -1` the new zoom is `0` and the anchor's
graph-space position is not preserved (the source divides by the zero zoom):
with zoom 1, pan 0, rect at the origin and anchor `(1, 0)`, the two sides of
the claimed equality differ. -/
theorem handle_zoom_anchor_invariant_cex :
    ¬ ((((⟨1, 0⟩ : Vec2) - (⟨0, 0⟩ : Vec2)) -
          (handle_zoom ⟨⟨0, 0⟩, ⟨8, 6⟩⟩ (-1) (some ⟨1, 0⟩)
              ⟨1, ⟨0, 0⟩, false, ⟨⟨0, 0⟩, ⟨0, 0⟩⟩, 0, 0, 0, 0⟩).2) /
          (handle_zoom ⟨⟨0, 0⟩, ⟨8, 6⟩⟩ (-1) (some ⟨1, 0⟩)
              ⟨1, ⟨0, 0⟩, false, ⟨⟨0, 0⟩, ⟨0, 0⟩⟩, 0, 0, 0, 0⟩).1 =
        (((⟨1, 0⟩ : Vec2) - (⟨0, 0⟩ : Vec2)) - (⟨0, 0⟩ : Vec2)) / (1 : ℚ)) := by
  simp only [handle_zoom, Vec2.eq_iff, Vec2.add_x, Vec2.sub_x, Vec2.smul_x,
    Vec2.div_x, Vec2.add_y, Vec2.sub_y, Vec2.smul_y, Vec2.div_y]
  norm_num

/-- The zoom chosen by `fit_to_screen`: with a nonzero current zoom, routing
the delta through `handle_zoom` lands exactly on the padded min-ratio zoom. -/
theorem fit_to_screen_zoom_eq (rect : RectQ) (m : Metadata) (hz : m.zoom ≠ 0) :
    (fit_to_screen rect m).zoom =
      min (rect.size.x /
            ((m.graph_bounds.max - m.graph_bounds.min).x * (1 + SCREEN_PADDING)))
          (rect.size.y /
            ((m.graph_bounds.max - m.graph_bounds.min).y * (1 + SCREEN_PADDING))) := by
  have h0 : (fit_to_screen rect m).zoom =
      m.zoom * (1 +
        (min (rect.size.x /
              ((m.graph_bounds.max - m.graph_bounds.min).x * (1 + SCREEN_PADDING)))
            (rect.size.y /
              ((m.graph_bounds.max - m.graph_bounds.min).y * (1 + SCREEN_PADDING))) /
          m.zoom - 1)) := rfl
  rw [h0]
  generalize min (rect.size.x /
        ((m.graph_bounds.max - m.graph_bounds.min).x * (1 + SCREEN_PADDING)))
      (rect.size.y /
        ((m.graph_bounds.max - m.graph_bounds.min).y * (1 + SCREEN_PADDING))) = z
  field_simp

/-- The pan written by `fit_to_screen` recenters the bounding-box center. -/
theorem fit_to_screen_pan_eq (rect : RectQ) (m : Metadata) :
    (fit_to_screen rect m).pan =
      rect.center - graph_center m * (fit_to_screen rect m).zoom := rfl

/-- `fit_to_screen` does not touch the stored graph bounds. -/
theorem fit_to_screen_bounds_eq (rect : RectQ) (m : Metadata) :
    (fit_to_screen rect m).graph_bounds = m.graph_bounds := rfl

/-- C2.  For every camera state with nonzero zoom (the spec's Camera invariant
is a positive zoom), every graph bounding box with positive width and height
and every canvas rect, `fit_to_screen` sets the zoom to
`min(canvas_w / (bbox_w * (1 + padding)), canvas_h / (bbox_h * (1 + padding)))`
with padding `0.3`, and sets the pan so the bounding-box center maps to the
canvas center under the new zoom (`center * zoom + pan = canvas center`). -/
theorem fit_to_screen_sets_zoom_and_centers (rect : RectQ) (m : Metadata)
    (hw : 0 < (m.graph_bounds.max - m.graph_bounds.min).x)
    (hh : 0 < (m.graph_bounds.max - m.graph_bounds.min).y)
    (hz : 0 < m.zoom) :
    (fit_to_screen rect m).zoom =
      min (rect.size.x /
            ((m.graph_bounds.max - m.graph_bounds.min).x * (1 + SCREEN_PADDING)))
          (rect.size.y /
            ((m.graph_bounds.max - m.graph_bounds.min).y * (1 + SCREEN_PADDING))) ∧
    graph_center m * (fit_to_screen rect m).zoom + (fit_to_screen rect m).pan =
      rect.center := by
  refine ⟨fit_to_screen_zoom_eq rect m (ne_of_gt hz), ?_⟩
  rw [fit_to_screen_pan_eq]
  rw [Vec2.eq_iff]
  constructor
  · simp only [Vec2.add_x, Vec2.sub_x, Vec2.smul_x]
    ring
  · simp only [Vec2.add_y, Vec2.sub_y, Vec2.smul_y]
    ring

/-- C2 witness: the fit theorem applied to a concrete camera, bounding box
and canvas. -/
theorem fit_to_screen_sets_zoom_and_centers_witness :
    (fit_to_screen ⟨⟨0, 0⟩, ⟨8, 6⟩⟩
        ⟨1, ⟨0, 0⟩, true, ⟨⟨0, 0⟩, ⟨2, 2⟩⟩, 0, 0, 0, 0⟩).zoom =
      min ((⟨⟨0, 0⟩, ⟨8, 6⟩⟩ : RectQ).size.x /
            ((((⟨1, ⟨0, 0⟩, true, ⟨⟨0, 0⟩, ⟨2, 2⟩⟩, 0, 0, 0, 0⟩ : Metadata)).graph_bounds.max -
                (⟨1, ⟨0, 0⟩, true, ⟨⟨0, 0⟩, ⟨2, 2⟩⟩, 0, 0, 0, 0⟩ : Metadata).graph_bounds.min).x *
              (1 + SCREEN_PADDING)))
          ((⟨⟨0, 0⟩, ⟨8, 6⟩⟩ : RectQ).size.y /
            ((((⟨1, ⟨0, 0⟩, true, ⟨⟨0, 0⟩, ⟨2, 2⟩⟩, 0, 0, 0, 0⟩ : Metadata)).graph_bounds.max -
                (⟨1, ⟨0, 0⟩, true, ⟨⟨0, 0⟩, ⟨2, 2⟩⟩, 0, 0, 0, 0⟩ : Metadata).graph_bounds.min).y *
              (1 + SCREEN_PADDING))) ∧
    graph_center ⟨1, ⟨0, 0⟩, true, ⟨⟨0, 0⟩, ⟨2, 2⟩⟩, 0, 0, 0, 0⟩ *
        (fit_to_screen ⟨⟨0, 0⟩, ⟨8, 6⟩⟩
            ⟨1, ⟨0, 0⟩, true, ⟨⟨0, 0⟩, ⟨2, 2⟩⟩, 0, 0, 0, 0⟩).zoom +
      (fit_to_screen ⟨⟨0, 0⟩, ⟨8, 6⟩⟩
          ⟨1, ⟨0, 0⟩, true, ⟨⟨0, 0⟩, ⟨2, 2⟩⟩, 0, 0, 0, 0⟩).pan =
      (⟨⟨0, 0⟩, ⟨8, 6⟩⟩ : RectQ).center :=
  fit_to_screen_sets_zoom_and_centers ⟨⟨0, 0⟩, ⟨8, 6⟩⟩
    ⟨1, ⟨0, 0⟩, true, ⟨⟨0, 0⟩, ⟨2, 2⟩⟩, 0, 0, 0, 0⟩ (by norm_num) (by norm_num)
    (by norm_num)

/-- C8.  Re-fitting is idempotent: with a non-degenerate bounding box, a
non-degenerate canvas and a nonzero starting zoom, calling `fit_to_screen`
twice with the same graph bounds and canvas rect yields the same zoom and the
same pan as the first call. -/
theorem fit_to_screen_idempotent (rect : RectQ) (m : Metadata)
    (hw : 0 < (m.graph_bounds.max - m.graph_bounds.min).x)
    (hh : 0 < (m.graph_bounds.max - m.graph_bounds.min).y)
    (hcw : 0 < rect.size.x) (hch : 0 < rect.size.y) (hz : 0 < m.zoom) :
    (fit_to_screen rect (fit_to_screen rect m)).zoom =
      (fit_to_screen rect m).zoom ∧
    (fit_to_screen rect (fit_to_screen rect m)).pan =
      (fit_to_screen rect m).pan := by
  have hpad : (0 : ℚ) < 1 + SCREEN_PADDING := by norm_num [SCREEN_PADDING]
  have h1 := fit_to_screen_zoom_eq rect m (ne_of_gt hz)
  have hz1 : 0 < (fit_to_screen rect m).zoom := by
    rw [h1]
    exact lt_min (div_pos hcw (mul_pos hw hpad)) (div_pos hch (mul_pos hh hpad))
  have h2 := fit_to_screen_zoom_eq rect (fit_to_screen rect m) (ne_of_gt hz1)
  rw [fit_to_screen_bounds_eq] at h2
  have hzz := h2.trans h1.symm
  refine ⟨hzz, ?_⟩
  have hp2 : (fit_to_screen rect (fit_to_screen rect m)).pan =
      rect.center - graph_center m * (fit_to_screen rect (fit_to_screen rect m)).zoom := rfl
  have hp1 : (fit_to_screen rect m).pan =
      rect.center - graph_center m * (fit_to_screen rect m).zoom := rfl
  rw [hp1, hp2, hzz]

/-- C8 witness: idempotence applied at a concrete camera, bounding box and
canvas. -/
theorem fit_to_screen_idempotent_witness :
    (fit_to_screen ⟨⟨1, 1⟩, ⟨9, 7⟩⟩
        (fit_to_screen ⟨⟨1, 1⟩, ⟨9, 7⟩⟩
          ⟨2, ⟨5, 5⟩, false, ⟨⟨0, 0⟩, ⟨4, 2⟩⟩, 0, 0, 0, 0⟩)).zoom =
      (fit_to_screen ⟨⟨1, 1⟩, ⟨9, 7⟩⟩
          ⟨2, ⟨5, 5⟩, false, ⟨⟨0, 0⟩, ⟨4, 2⟩⟩, 0, 0, 0, 0⟩).zoom ∧
    (fit_to_screen ⟨⟨1, 1⟩, ⟨9, 7⟩⟩
        (fit_to_screen ⟨⟨1, 1⟩, ⟨9, 7⟩⟩
          ⟨2, ⟨5, 5⟩, false, ⟨⟨0, 0⟩, ⟨4, 2⟩⟩, 0, 0, 0, 0⟩)).pan =
      (fit_to_screen ⟨⟨1, 1⟩, ⟨9, 7⟩⟩
          ⟨2, ⟨5, 5⟩, false, ⟨⟨0, 0⟩, ⟨4, 2⟩⟩, 0, 0, 0, 0⟩).pan :=
  fit_to_screen_idempotent ⟨⟨1, 1⟩, ⟨9, 7⟩⟩
    ⟨2, ⟨5, 5⟩, false, ⟨⟨0, 0⟩, ⟨4, 2⟩⟩, 0, 0, 0, 0⟩ (by norm_num) (by norm_num)
    (by norm_num [RectQ.size]) (by norm_num [RectQ.size]) (by norm_num)

/-- C7 (amended).  Dragging takes priority over canvas panning only: with
fit-to-screen disabled and no zoom gesture this frame (`zoom_delta = 1`), the
navigation handler leaves the camera metadata unchanged whenever a node is
being dragged — the canvas-pan branch is suppressed by the dragged node.  (The
claim's stronger reading — that no camera change at all can happen while a
node is dragged — fails: a pinch/scroll zoom gesture is applied regardless of
the dragged node, see the counterexample.) -/
theorem handle_navigation_drag_blocks_pan (settings : Settings)
    (inp : NavInput) (i : ℕ) (rect : RectQ) (m : Metadata)
    (hfit : settings.fit_to_screen = false)
    (hgesture : inp.zoom_delta = 1) :
    handle_navigation settings inp (some i) rect m = m := by
  cases m
  simp [handle_navigation, hfit, hgesture]

/-- C7 witness: the no-gesture navigation theorem applied at a concrete frame
with a dragged node. -/
theorem handle_navigation_drag_blocks_pan_witness :
    handle_navigation ⟨false, false, false, false, true⟩ ⟨1, none, true, ⟨3, 4⟩⟩
        (some 5) ⟨⟨0, 0⟩, ⟨8, 6⟩⟩ ⟨2, ⟨1, 1⟩, false, ⟨⟨0, 0⟩, ⟨4, 2⟩⟩, 0, 0, 0, 0⟩ =
      ⟨2, ⟨1, 1⟩, false, ⟨⟨0, 0⟩, ⟨4, 2⟩⟩, 0, 0, 0, 0⟩ :=
  handle_navigation_drag_blocks_pan ⟨false, false, false, false, true⟩
    ⟨1, none, true, ⟨3, 4⟩⟩ 5 ⟨⟨0, 0⟩, ⟨8, 6⟩⟩
    ⟨2, ⟨1, 1⟩, false, ⟨⟨0, 0⟩, ⟨4, 2⟩⟩, 0, 0, 0, 0⟩ rfl rfl

/-- C7 counterexample.  While node 0 is being dragged, a zoom gesture
(`zoom_delta = 2`) still changes the stored zoom (from `1` to `0.9`): the
navigation handler only suppresses the canvas-pan branch for a dragged node,
not the zoom branch. -/
theorem handle_navigation_gesture_while_drag_cex :
    (handle_navigation ⟨false, false, false, false, true⟩ ⟨2, none, true, ⟨0, 0⟩⟩
        (some 0) ⟨⟨0, 0⟩, ⟨8, 6⟩⟩
        ⟨1, ⟨0, 0⟩, false, ⟨⟨0, 0⟩, ⟨4, 2⟩⟩, 0, 0, 0, 0⟩).zoom ≠
      (⟨1, ⟨0, 0⟩, false, ⟨⟨0, 0⟩, ⟨4, 2⟩⟩, 0, 0, 0, 0⟩ : Metadata).zoom := by
  norm_num [handle_navigation, handle_zoom, ZOOM_STEP, signumQ,
    Option.some_ne_none]

/-- C3.  Selection toggling through `handle_clicks`/`handle_node_click`, with
selection enabled and multi-select disabled: clicking an unselected node `A`
with nothing selected emits exactly one node entry, with after = true;
clicking a selected node `C` again emits its deselect entry and its toggle
entry, both with after = false (net effect: deselected); clicking an
unselected node `B` while `C` is selected emits the `C`-deselect entry
strictly before the `B`-select entry. -/
theorem handle_clicks_selection_toggle (s : Settings) (els : Elements)
    (A B C : ℕ) (nA nB nC : NodeM)
    (hsel : s.node_select = true) (hmulti : s.node_multiselect = false)
    (hA : els.node A = some nA) (hnA : nA.selected = false)
    (hB : els.node B = some nB) (hnB : nB.selected = false)
    (hC : els.node C = some nC) (hnC : nC.selected = true) :
    handle_clicks s els true (some A) ⟨none, [], []⟩ =
      [Change.selectNode A false true] ∧
    handle_clicks s els true (some C) ⟨none, [C], []⟩ =
      [Change.deselectNode C true false, Change.selectNode C true false] ∧
    handle_clicks s els true (some B) ⟨none, [C], []⟩ =
      [Change.deselectNode C true false, Change.selectNode B false true] := by
  refine ⟨?_, ?_, ?_⟩ <;>
    simp [handle_clicks, handle_node_click, deselect_all_nodes,
      deselect_all_edges, select_node_change, deselect_node_change, hsel,
      hmulti, hA, hB, hC, hnA, hnB, hnC, List.filterMap]

/-- C3 witness: the toggle theorem applied to a three-node concrete element
set (node 0 unselected, node 1 selected, node 2 unselected). -/
theorem handle_clicks_selection_toggle_witness :
    handle_clicks ⟨true, false, false, false, false⟩
        ⟨fun i =>
          if i = 0 then some ⟨⟨0, 0⟩, 5, false, false, false⟩
          else if i = 1 then some ⟨⟨1, 0⟩, 5, true, false, false⟩
          else if i = 2 then some ⟨⟨2, 0⟩, 5, false, false, false⟩
          else none, fun _ => none⟩
        true (some 0) ⟨none, [], []⟩ = [Change.selectNode 0 false true] ∧
    handle_clicks ⟨true, false, false, false, false⟩
        ⟨fun i =>
          if i = 0 then some ⟨⟨0, 0⟩, 5, false, false, false⟩
          else if i = 1 then some ⟨⟨1, 0⟩, 5, true, false, false⟩
          else if i = 2 then some ⟨⟨2, 0⟩, 5, false, false, false⟩
          else none, fun _ => none⟩
        true (some 1) ⟨none, [1], []⟩ =
      [Change.deselectNode 1 true false, Change.selectNode 1 true false] ∧
    handle_clicks ⟨true, false, false, false, false⟩
        ⟨fun i =>
          if i = 0 then some ⟨⟨0, 0⟩, 5, false, false, false⟩
          else if i = 1 then some ⟨⟨1, 0⟩, 5, true, false, false⟩
          else if i = 2 then some ⟨⟨2, 0⟩, 5, false, false, false⟩
          else none, fun _ => none⟩
        true (some 2) ⟨none, [1], []⟩ =
      [Change.deselectNode 1 true false, Change.selectNode 2 false true] :=
  handle_clicks_selection_toggle ⟨true, false, false, false, false⟩
    ⟨fun i =>
      if i = 0 then some ⟨⟨0, 0⟩, 5, false, false, false⟩
      else if i = 1 then some ⟨⟨1, 0⟩, 5, true, false, false⟩
      else if i = 2 then some ⟨⟨2, 0⟩, 5, false, false, false⟩
      else none, fun _ => none⟩
    0 2 1 ⟨⟨0, 0⟩, 5, false, false, false⟩ ⟨⟨2, 0⟩, 5, false, false, false⟩
    ⟨⟨1, 0⟩, 5, true, false, false⟩ rfl rfl (by norm_num) rfl (by norm_num) rfl
    (by norm_num) rfl

/-- C10.  Binding is a precondition of the identity/order accessors of
`Edge`: on a freshly constructed `Edge::new(payload)` the accessors `id()`,
`order()` and `set_order()` all unwrap a `None` identity (modelled as `none`,
the source panics); after `bind(idx, order)`, `order()` returns exactly the
order passed to `bind` (and `id()` returns the bound identity). -/
theorem edge_bind_precondition_of_accessors {E : Type} (payload : E)
    (idx order k : ℕ) :
    (EdgeP.new payload).get_id = none ∧
    (EdgeP.new payload).get_order = none ∧
    (EdgeP.new payload).set_order k = none ∧
    ((EdgeP.new payload).bind idx order).get_order = some order ∧
    ((EdgeP.new payload).bind idx order).get_id = some ⟨idx, order⟩ :=
  ⟨rfl, rfl, rfl, rfl, rfl⟩

/-- C9.  `distance_segment_to_point` behaves as specified, stated on the exact
squared distances (`distance_segment_to_point_sq` is the value the source
takes the square root of): for distinct endpoints, the source's
component-quotient parameter `k` equals the true projection parameter `t`;
when `t ∈ [0, 1]` the result is the squared distance to the orthogonal foot on
the line through `a` and `b` (the foot is orthogonal and minimizes the
distance to the line, i.e. it realizes the perpendicular distance); when
`t ≤ 0` it is the squared distance to `a`; when `t ≥ 1`, to `b`. -/
theorem distance_segment_to_point_spec (a b p : Vec2) (hab : a ≠ b) :
    seg_param a b p = proj_param a b p ∧
    (p - proj_foot a b p).dot (b - a) = 0 ∧
    (∀ s : ℚ, hypot2 p (proj_foot a b p) ≤
        hypot2 p ⟨a.x + s * (b.x - a.x), a.y + s * (b.y - a.y)⟩) ∧
    (proj_param a b p ≤ 0 → distance_segment_to_point_sq a b p = hypot2 p a) ∧
    (0 ≤ proj_param a b p → proj_param a b p ≤ 1 →
        distance_segment_to_point_sq a b p = hypot2 p (proj_foot a b p)) ∧
    (1 ≤ proj_param a b p → distance_segment_to_point_sq a b p = hypot2 p b) := by
  have hne : ¬(b.x - a.x = 0 ∧ b.y - a.y = 0) := by
    rintro ⟨hx, hy⟩
    apply hab
    rw [Vec2.eq_iff]
    constructor <;> linarith
  have hdot_pos : 0 < (b - a).dot (b - a) := by
    have hin : (b - a).dot (b - a) = (b.x - a.x) ^ 2 + (b.y - a.y) ^ 2 := by
      simp [Vec2.dot]
      ring
    rw [hin]
    rcases not_and_or.mp hne with h | h
    · have h1 : 0 < (b.x - a.x) ^ 2 := by positivity
      have h2 : (0 : ℚ) ≤ (b.y - a.y) ^ 2 := sq_nonneg _
      linarith
    · have h1 : 0 < (b.y - a.y) ^ 2 := by positivity
      have h2 : (0 : ℚ) ≤ (b.x - a.x) ^ 2 := sq_nonneg _
      linarith
  have hdot_ne : (b - a).dot (b - a) ≠ 0 := ne_of_gt hdot_pos
  have hdot_ne2 : (b.x - a.x) * (b.x - a.x) + (b.y - a.y) * (b.y - a.y) ≠ 0 := by
    simpa [Vec2.dot] using hdot_ne
  have hk : seg_param a b p = proj_param a b p := by
    simp only [seg_param, proj, proj_param, Vec2.add_x, Vec2.add_y, Vec2.sub_x,
      Vec2.sub_y]
    by_cases hxy : |b.x - a.x| > |b.y - a.y|
    · rw [if_pos hxy]
      have hx : b.x - a.x ≠ 0 := by
        intro h0
        rw [h0] at hxy
        simp only [abs_zero] at hxy
        exact absurd hxy (not_lt.mpr (abs_nonneg _))
      field_simp
      ring
    · rw [if_neg hxy]
      have hy : b.y - a.y ≠ 0 := by
        intro h0
        apply hne
        have hx0 : |b.x - a.x| ≤ |b.y - a.y| := not_lt.mp hxy
        rw [h0] at hx0
        simp only [abs_zero] at hx0
        exact ⟨abs_eq_zero.mp (le_antisymm hx0 (abs_nonneg _)), h0⟩
      field_simp
      ring
  refine ⟨hk, ?_, ?_, ?_, ?_, ?_⟩
  · simp only [proj_foot, proj_param, Vec2.dot, Vec2.sub_x, Vec2.sub_y]
    field_simp
    ring
  · intro s
    have key : hypot2 p ⟨a.x + s * (b.x - a.x), a.y + s * (b.y - a.y)⟩ -
        hypot2 p (proj_foot a b p) =
        (s - proj_param a b p) ^ 2 *
          ((b.x - a.x) * (b.x - a.x) + (b.y - a.y) * (b.y - a.y)) := by
      simp only [hypot2, proj_foot, proj_param, Vec2.dot, Vec2.sub_x, Vec2.sub_y]
      field_simp
      ring
    have hD : (0 : ℚ) < (b.x - a.x) * (b.x - a.x) + (b.y - a.y) * (b.y - a.y) := by
      simpa [Vec2.dot] using hdot_pos
    have h1 : 0 ≤ (s - proj_param a b p) ^ 2 *
        ((b.x - a.x) * (b.x - a.x) + (b.y - a.y) * (b.y - a.y)) :=
      mul_nonneg (sq_nonneg _) hD.le
    linarith
  · intro ht
    simp only [distance_segment_to_point_sq]
    rw [hk, if_pos ht]
  · intro h0 h1
    simp only [distance_segment_to_point_sq]
    rw [hk]
    by_cases hc0 : proj_param a b p ≤ 0
    · rw [if_pos hc0]
      have ht0 : proj_param a b p = 0 := le_antisymm hc0 h0
      have : proj_foot a b p = a := by
        rw [Vec2.eq_iff]
        refine ⟨?_, ?_⟩ <;> (simp only [proj_foot, ht0]; ring)
      rw [this]
    · rw [if_neg hc0]
      by_cases hc1 : proj_param a b p ≥ 1
      · rw [if_pos hc1]
        have ht1 : proj_param a b p = 1 := le_antisymm h1 hc1
        have : proj_foot a b p = b := by
          rw [Vec2.eq_iff]
          refine ⟨?_, ?_⟩ <;> (simp only [proj_foot, ht1, Vec2.sub_x, Vec2.sub_y]; ring)
        rw [this]
      · rw [if_neg hc1]
        rfl
  · intro ht
    simp only [distance_segment_to_point_sq]
    rw [hk]
    have hc0 : ¬ proj_param a b p ≤ 0 := by linarith
    rw [if_neg hc0, if_pos (by linarith : proj_param a b p ≥ 1)]

/-- C9 witness: the segment-distance theorem applied to the concrete segment
from `(0,0)` to `(4,0)` and the point `(1,3)` (projection parameter 1/4). -/
theorem distance_segment_to_point_spec_witness :
    seg_param ⟨0, 0⟩ ⟨4, 0⟩ ⟨1, 3⟩ = proj_param ⟨0, 0⟩ ⟨4, 0⟩ ⟨1, 3⟩ ∧
    ((⟨1, 3⟩ : Vec2) - proj_foot ⟨0, 0⟩ ⟨4, 0⟩ ⟨1, 3⟩).dot
        ((⟨4, 0⟩ : Vec2) - (⟨0, 0⟩ : Vec2)) = 0 ∧
    (∀ s : ℚ, hypot2 ⟨1, 3⟩ (proj_foot ⟨0, 0⟩ ⟨4, 0⟩ ⟨1, 3⟩) ≤
        hypot2 ⟨1, 3⟩
          ⟨(⟨0, 0⟩ : Vec2).x + s * ((⟨4, 0⟩ : Vec2).x - (⟨0, 0⟩ : Vec2).x),
            (⟨0, 0⟩ : Vec2).y + s * ((⟨4, 0⟩ : Vec2).y - (⟨0, 0⟩ : Vec2).y)⟩) ∧
    (proj_param ⟨0, 0⟩ ⟨4, 0⟩ ⟨1, 3⟩ ≤ 0 →
        distance_segment_to_point_sq ⟨0, 0⟩ ⟨4, 0⟩ ⟨1, 3⟩ = hypot2 ⟨1, 3⟩ ⟨0, 0⟩) ∧
    (0 ≤ proj_param ⟨0, 0⟩ ⟨4, 0⟩ ⟨1, 3⟩ → proj_param ⟨0, 0⟩ ⟨4, 0⟩ ⟨1, 3⟩ ≤ 1 →
        distance_segment_to_point_sq ⟨0, 0⟩ ⟨4, 0⟩ ⟨1, 3⟩ =
          hypot2 ⟨1, 3⟩ (proj_foot ⟨0, 0⟩ ⟨4, 0⟩ ⟨1, 3⟩)) ∧
    (1 ≤ proj_param ⟨0, 0⟩ ⟨4, 0⟩ ⟨1, 3⟩ →
        distance_segment_to_point_sq ⟨0, 0⟩ ⟨4, 0⟩ ⟨1, 3⟩ = hypot2 ⟨1, 3⟩ ⟨4, 0⟩) :=
  distance_segment_to_point_spec ⟨0, 0⟩ ⟨4, 0⟩ ⟨1, 3⟩
    (by simp [Vec2.eq_iff])

theorem nodeEntryOr_setNode_same (m : ℕ → Option StateComputedNode) (idx : ℕ)
    (v : StateComputedNode) : nodeEntryOr (setNode m idx v) idx = v := by
  simp [nodeEntryOr, setNode]

theorem setNode_other (m : ℕ → Option StateComputedNode) (idx j : ℕ)
    (v : StateComputedNode) (h : j ≠ idx) : setNode m idx v j = m j := by
  simp [setNode, h]

theorem mark_folded_children_cons (root hd : ℕ) (tl : List ℕ)
    (st : StateComputed) :
    mark_folded_children root st (hd :: tl) =
      mark_folded_children root
        (if hd = root then st
         else
          { st with
              nodes := setNode st.nodes hd
                { nodeEntryOr st.nodes hd with folded_child := true } })
        tl := by
  by_cases h : hd = root
  · rw [if_pos h]
    show mark_folded_children root (if hd = root then st else _) tl = _
    rw [if_pos h]
  · rw [if_neg h]
    show mark_folded_children root (if hd = root then st else _) tl = _
    rw [if_neg h]

theorem mark_folded_children_nodes_root (root : ℕ) (l : List ℕ) :
    ∀ st : StateComputed,
      (mark_folded_children root st l).nodes root = st.nodes root := by
  induction l with
  | nil => intro st; rfl
  | cons hd tl ih =>
    intro st
    rw [mark_folded_children_cons, ih]
    by_cases h : hd = root
    · rw [if_pos h]
    · rw [if_neg h]
      have h2 : ¬(root = hd) := fun e => h e.symm
      simp [setNode, h2]

theorem mark_folded_children_preserve (root : ℕ) (l : List ℕ) :
    ∀ (st : StateComputed) (j : ℕ),
      (nodeEntryOr st.nodes j).folded_child = true →
      (nodeEntryOr (mark_folded_children root st l).nodes j).folded_child = true := by
  induction l with
  | nil => intro st j h; exact h
  | cons hd tl ih =>
    intro st j h
    rw [mark_folded_children_cons]
    apply ih
    by_cases hr : hd = root
    · rw [if_pos hr]
      exact h
    · rw [if_neg hr]
      by_cases hj : j = hd
      · subst hj
        show (nodeEntryOr (setNode st.nodes j _) j).folded_child = true
        rw [nodeEntryOr_setNode_same]
      · show (nodeEntryOr (setNode st.nodes hd _) j).folded_child = true
        unfold nodeEntryOr
        rw [setNode_other st.nodes hd j _ hj]
        exact h

theorem mark_folded_children_mem (root : ℕ) (l : List ℕ) :
    ∀ (st : StateComputed) (j : ℕ), j ∈ l → j ≠ root →
      (nodeEntryOr (mark_folded_children root st l).nodes j).folded_child = true := by
  induction l with
  | nil => intro st j h; simp at h
  | cons hd tl ih =>
    intro st j hmem hne
    rw [mark_folded_children_cons]
    rcases List.mem_cons.mp hmem with rfl | hmem2
    · rw [if_neg hne]
      apply mark_folded_children_preserve
      show (nodeEntryOr (setNode st.nodes j _) j).folded_child = true
      rw [nodeEntryOr_setNode_same]
    · by_cases hr : hd = root
      · rw [if_pos hr]
        exact ih st j hmem2 hne
      · rw [if_neg hr]
        exact ih _ j hmem2 hne

theorem compute_folding_reduces (g : GraphM) (st : StateComputed)
    (root_idx : ℕ) (root : NodeData) (depth : ℕ) (hf : root.folded = true) :
    compute_folding g st root_idx root depth =
      mark_folded_children root_idx
        { st with
            foldings := add_subgraph st.foldings g root_idx (depth : ℤ)
            nodes := setNode st.nodes root_idx
              { nodeEntryOr st.nodes root_idx with
                  num_folded := (walk_nodes g root_idx depth).length - 1 } }
        (walk_nodes g root_idx depth) := by
  unfold compute_folding
  rw [hf]
  simp only [Bool.not_true, Bool.false_eq_true, if_false]
  have helts : elements_by_root
      (add_subgraph st.foldings g root_idx (depth : ℤ)) root_idx =
      some (walk_nodes g root_idx depth, walk_edges g root_idx depth) := by
    simp [elements_by_root, add_subgraph, Int.toNat_natCast]
  rw [helts]

/-- C5.  `compute_folding` closes the gap: for every graph, frame state, fold
depth and folded root node, after the call the root's folded-descendant-count
(`num_folded`) equals the size of its induced fold walk at that depth minus
one (the root itself is excluded), and every non-root member of the walk is
marked as a folded child (`folded_child = true`, i.e. `subfolded`). -/
theorem compute_folding_spec (g : GraphM) (st : StateComputed) (root_idx : ℕ)
    (root : NodeData) (depth : ℕ) (hf : root.folded = true) :
    (nodeEntryOr (compute_folding g st root_idx root depth).nodes
        root_idx).num_folded = (walk_nodes g root_idx depth).length - 1 ∧
    ∀ i ∈ walk_nodes g root_idx depth, i ≠ root_idx →
      (nodeEntryOr (compute_folding g st root_idx root depth).nodes
          i).folded_child = true := by
  rw [compute_folding_reduces g st root_idx root depth hf]
  constructor
  · unfold nodeEntryOr
    rw [mark_folded_children_nodes_root]
    show (nodeEntryOr (setNode st.nodes root_idx _) root_idx).num_folded = _
    rw [nodeEntryOr_setNode_same]
  · intro i hmem hne
    exact mark_folded_children_mem root_idx (walk_nodes g root_idx depth) _ i
      hmem hne

/-- C5 witness: the folding theorem applied to the concrete path graph
`0 → 1 → 2` with folded root `0` at depth 2 (walk = `[0, 1, 2]`, so the
root's count is 2 and nodes 1, 2 become folded children). -/
theorem compute_folding_spec_witness :
    (nodeEntryOr
        (compute_folding ⟨true, [0, 1, 2], [(0, 0, 1), (1, 1, 2)]⟩
            ⟨none, fun _ => none, fun _ => none, fun _ => none, fun _ => none⟩
            0 ⟨⟨0, 0⟩, false, false, true⟩ 2).nodes 0).num_folded =
      (walk_nodes ⟨true, [0, 1, 2], [(0, 0, 1), (1, 1, 2)]⟩ 0 2).length - 1 ∧
    ∀ i ∈ walk_nodes ⟨true, [0, 1, 2], [(0, 0, 1), (1, 1, 2)]⟩ 0 2,
      i ≠ 0 →
      (nodeEntryOr
          (compute_folding ⟨true, [0, 1, 2], [(0, 0, 1), (1, 1, 2)]⟩
              ⟨none, fun _ => none, fun _ => none, fun _ => none, fun _ => none⟩
              0 ⟨⟨0, 0⟩, false, false, true⟩ 2).nodes i).folded_child = true :=
  compute_folding_spec ⟨true, [0, 1, 2], [(0, 0, 1), (1, 1, 2)]⟩
    ⟨none, fun _ => none, fun _ => none, fun _ => none, fun _ => none⟩ 0
    ⟨⟨0, 0⟩, false, false, true⟩ 2 rfl

theorem mark_selected_nodes_cons (root : ℕ) (cm : Bool) (hd : ℕ)
    (tl : List ℕ) (st : StateComputed) :
    mark_selected_nodes root cm st (hd :: tl) =
      mark_selected_nodes root cm
        (if hd = root then st
         else
          { st with
              nodes := setNode st.nodes hd
                (if cm then
                  { nodeEntryOr st.nodes hd with selected_child := true }
                 else
                  { nodeEntryOr st.nodes hd with selected_parent := true }) })
        tl := by
  by_cases h : hd = root
  · rw [if_pos h]
    show mark_selected_nodes root cm (if hd = root then st else _) tl = _
    rw [if_pos h]
  · rw [if_neg h]
    show mark_selected_nodes root cm (if hd = root then st else _) tl = _
    rw [if_neg h]

theorem mark_selected_nodes_nodes_root (root : ℕ) (cm : Bool) (l : List ℕ) :
    ∀ st : StateComputed,
      (mark_selected_nodes root cm st l).nodes root = st.nodes root := by
  induction l with
  | nil => intro st; rfl
  | cons hd tl ih =>
    intro st
    rw [mark_selected_nodes_cons, ih]
    by_cases h : hd = root
    · rw [if_pos h]
    · rw [if_neg h]
      have h2 : ¬(root = hd) := fun e => h e.symm
      simp [setNode, h2]

theorem mark_selected_edges_keeps_nodes (cm : Bool) (l : List ℕ) :
    ∀ st : StateComputed, (mark_selected_edges cm st l).nodes = st.nodes := by
  induction l with
  | nil => intro st; rfl
  | cons hd tl ih =>
    intro st
    show (mark_selected_edges cm _ tl).nodes = st.nodes
    rw [ih]

theorem compute_selection_nodes_root (g : GraphM) (st : StateComputed)
    (root_idx : ℕ) (root : NodeData) (cm : Bool) (depth : ℤ) :
    (compute_selection g st root_idx root cm depth).nodes root_idx =
      st.nodes root_idx := by
  unfold compute_selection
  cases hsel : root.selected with
  | false => simp [hsel]
  | true =>
    simp only [hsel, Bool.not_true, Bool.false_eq_true, if_false]
    have helts : elements_by_root
        (add_subgraph st.selections g root_idx depth) root_idx =
        some (walk_nodes g root_idx depth.toNat,
          walk_edges g root_idx depth.toNat) := by
      simp [elements_by_root, add_subgraph]
    rw [helts]
    rw [mark_selected_edges_keeps_nodes]
    rw [mark_selected_nodes_nodes_root]

theorem compute_folding_not_folded (g : GraphM) (st : StateComputed)
    (root_idx : ℕ) (root : NodeData) (depth : ℕ)
    (hf : root.folded = false) :
    compute_folding g st root_idx root depth = st := by
  unfold compute_folding
  rw [hf]
  rfl

theorem compute_folding_nodes_root (g : GraphM) (st : StateComputed)
    (root_idx : ℕ) (root : NodeData) (depth : ℕ) (hf : root.folded = true) :
    (compute_folding g st root_idx root depth).nodes root_idx =
      some { nodeEntryOr st.nodes root_idx with
               num_folded := (walk_nodes g root_idx depth).length - 1 } := by
  rw [compute_folding_reduces g st root_idx root depth hf]
  rw [mark_folded_children_nodes_root]
  simp [setNode]

theorem cfn_dragged_nodes (st : StateComputed) (idx : ℕ) (n : NodeData) :
    (cfn_dragged st idx n).nodes = st.nodes := by
  unfold cfn_dragged
  by_cases h : n.dragged
  · rw [if_pos h]
  · rw [if_neg h]

theorem cfn_entry_nodes_at (st : StateComputed) (idx : ℕ) :
    (cfn_entry st idx).nodes idx = some (nodeEntryOr st.nodes idx) := by
  simp [cfn_entry]

theorem bump_radius_radius (c : StateComputedNode) (add : ℚ) :
    (bump_radius c add).radius = c.radius + add := rfl

theorem compute_for_node_fst_nodes (g : GraphM) (meta : Metadata)
    (st : StateComputed) (idx : ℕ) (n : NodeData) (si : SettingsInteractionM)
    (ss : SettingsStyleM) :
    (compute_for_node g meta st idx n si ss).1.nodes =
      setNode (cfn_st3 g st idx n si).nodes idx
        (bump_radius (nodeEntryOr (cfn_st3 g st idx n si).nodes idx)
          (ss.edge_radius_weight * (edges_num g idx : ℚ) +
            ((nodeEntryOr (cfn_st3 g st idx n si).nodes idx).num_folded : ℚ) *
              ss.folded_node_radius_weight)) := rfl

/-- C6 (amended).  The effective radius computed by `compute_for_node` for a
node visited during the per-frame computation is the base radius `5` plus
`edge_radius_weight` times `edges_num` — the count given by petgraph's
`edges(idx)`, i.e. only the OUTGOING edges in a directed graph — plus
`folded_node_radius_weight` times the folded-descendant-count, the latter
being `walk size - 1` when the node is folded and `0` otherwise.  The
precondition fixes only what the per-frame single-visit policy guarantees
before the node's own visit: its entry (if already created by an
earlier-visited root's selection/fold walk, which may have set the
`selected_child`/`selected_parent`/`folded_child` flags) still has the default
radius `5` and `num_folded` `0` — only `inc_radius` at the node's own visit
changes the radius, and `num_folded` is only written at a folded root's own
visit.  (The claim's `number of edges incident to the node` is wrong for
directed graphs: a directed node's incoming edges do not grow its radius, see
the counterexample.) -/
theorem compute_for_node_radius (g : GraphM) (meta : Metadata)
    (st : StateComputed) (idx : ℕ) (n : NodeData) (si : SettingsInteractionM)
    (ss : SettingsStyleM)
    (hrad : (nodeEntryOr st.nodes idx).radius = 5)
    (hnum : (nodeEntryOr st.nodes idx).num_folded = 0) :
    (nodeEntryOr (compute_for_node g meta st idx n si ss).1.nodes idx).radius =
      5 + ss.edge_radius_weight * (edges_num g idx : ℚ) +
        ((if n.folded = true then
            (walk_nodes g idx si.folding_depth).length - 1
          else 0 : ℕ) : ℚ) * ss.folded_node_radius_weight := by
  have hA : nodeEntryOr
      (compute_selection g (cfn_dragged (cfn_entry st idx) idx n) idx n
        (decide (0 < si.selection_depth)) si.selection_depth).nodes idx =
      nodeEntryOr st.nodes idx := by
    unfold nodeEntryOr
    rw [compute_selection_nodes_root, cfn_dragged_nodes, cfn_entry_nodes_at]
    rfl
  rw [compute_for_node_fst_nodes, nodeEntryOr_setNode_same, bump_radius_radius]
  cases hfold : n.folded with
  | false =>
    have h3 : cfn_st3 g st idx n si =
        compute_selection g (cfn_dragged (cfn_entry st idx) idx n) idx n
          (decide (0 < si.selection_depth)) si.selection_depth := by
      unfold cfn_st3
      exact compute_folding_not_folded _ _ _ _ _ hfold
    rw [h3, hA, hrad, hnum]
    simp
  | true =>
    have hC : nodeEntryOr (cfn_st3 g st idx n si).nodes idx =
        { nodeEntryOr st.nodes idx with
            num_folded := (walk_nodes g idx si.folding_depth).length - 1 } := by
      unfold cfn_st3 nodeEntryOr
      rw [compute_folding_nodes_root _ _ _ _ _ hfold]
      rw [show nodeEntryOr (compute_selection g
          (cfn_dragged (cfn_entry st idx) idx n) idx n
          (decide (0 < si.selection_depth)) si.selection_depth).nodes idx =
          nodeEntryOr st.nodes idx from hA]
      rfl
    rw [hC]
    simp [hrad]
    ring

/-- C6 counterexample.  In a directed graph with the single edge `0 → 1`,
node 1 has one incident edge, but `compute_for_node` (through petgraph's
`edges`, which yields only outgoing edges on directed graphs) grows its radius
by zero: the computed radius is `5`, not the claim's
`5 + edge_radius_weight * incident_count = 6` (weights 1, node unfolded). -/
theorem compute_for_node_incident_cex :
    (nodeEntryOr
        (compute_for_node ⟨true, [0, 1], [(0, 0, 1)]⟩
            ⟨1, ⟨0, 0⟩, false, ⟨⟨0, 0⟩, ⟨0, 0⟩⟩, 0, 0, 0, 0⟩
            ⟨none, fun _ => none, fun _ => none, fun _ => none, fun _ => none⟩
            1 ⟨⟨0, 0⟩, false, false, false⟩ ⟨0, 0⟩ ⟨1, 1⟩).1.nodes 1).radius ≠
      5 + (1 : ℚ) *
          (incident_edges_num ⟨true, [0, 1], [(0, 0, 1)]⟩ 1 : ℚ) +
        (0 : ℚ) * 1 := by
  norm_num [compute_for_node, cfn_entry, cfn_dragged, compute_selection,
    compute_folding, edges_num, incident_edges_num, nodeEntryOr, setNode,
    StateComputedNode.default, List.filter]

/-- C6 witness: the radius formula applied to a concrete folded node `0` of
the directed graph `0 → 1` (edge weight 1, folded weight 2, fold depth 1:
walk `[0, 1]`, folded count 1, one outgoing edge), whose computed entry was
already created and flag-marked (`selected_child`/`folded_child` set) by an
earlier-visited root's walk, with radius still 5 and `num_folded` still 0. -/
theorem compute_for_node_radius_witness :
    (nodeEntryOr
        (compute_for_node ⟨true, [0, 1], [(0, 0, 1)]⟩
            ⟨1, ⟨0, 0⟩, false, ⟨⟨0, 0⟩, ⟨0, 0⟩⟩, 0, 0, 0, 0⟩
            ⟨none, fun _ => none, fun _ => none,
              fun i => if i = 0 then some ⟨true, false, true, 0, 5⟩ else none,
              fun _ => none⟩
            0 ⟨⟨0, 0⟩, false, false, true⟩ ⟨0, 1⟩ ⟨1, 2⟩).1.nodes 0).radius =
      5 + (1 : ℚ) * (edges_num ⟨true, [0, 1], [(0, 0, 1)]⟩ 0 : ℚ) +
        ((if (⟨⟨0, 0⟩, false, false, true⟩ : NodeData).folded = true then
            (walk_nodes ⟨true, [0, 1], [(0, 0, 1)]⟩ 0 1).length - 1
          else 0 : ℕ) : ℚ) * 2 :=
  compute_for_node_radius ⟨true, [0, 1], [(0, 0, 1)]⟩
    ⟨1, ⟨0, 0⟩, false, ⟨⟨0, 0⟩, ⟨0, 0⟩⟩, 0, 0, 0, 0⟩
    ⟨none, fun _ => none, fun _ => none,
      fun i => if i = 0 then some ⟨true, false, true, 0, 5⟩ else none,
      fun _ => none⟩ 0
    ⟨⟨0, 0⟩, false, false, true⟩ ⟨0, 1⟩ ⟨1, 2⟩ rfl rfl

theorem list_range_five : List.range 5 = [0, 1, 2, 3, 4] := rfl

theorem ratSqrt_hundred : ratSqrt 100 = 10 := by
  have h : Nat.sqrt 100 = 10 := by
    have h10 : (100 : ℕ) = 10 * 10 := rfl
    rw [h10, Nat.sqrt_eq]
  unfold ratSqrt
  rw [show Int.toNat (100 : ℚ).num = 100 from rfl, h]
  norm_num

set_option maxHeartbeats 1000000 in
theorem edge_map_midline_eval :
    edge_by_screen_pos gC4 1 ⟨0, 0⟩ 3 ⟨5, 0⟩ [((0, 1), [(1, eC4), (0, eC4)])] =
      some 0 := by
  norm_num [edge_by_screen_pos, edge_hit_in_pair, is_point_on_bezier_curve,
    quad_flatten, list_range_five, quad_bezier_point,
    distance_segment_to_point_sq, seg_param, proj, hypot2, pointLtWidth,
    vec2_len, ratSqrt_hundred, gC4, eC4, Vec2.dot]

set_option maxHeartbeats 1000000 in
theorem edge_map_apex_eval :
    edge_by_screen_pos gC4 1 ⟨0, 0⟩ 3 ⟨5, 5⟩ [((0, 1), [(1, eC4), (0, eC4)])] =
      some 1 := by
  norm_num [edge_by_screen_pos, edge_hit_in_pair, is_point_on_bezier_curve,
    quad_flatten, list_range_five, quad_bezier_point,
    distance_segment_to_point_sq, seg_param, proj, hypot2, pointLtWidth,
    vec2_len, ratSqrt_hundred, gC4, eC4, Vec2.dot]

/-- C4 counterexample.  Two parallel edges `0 → 1` between nodes at `(0,0)`
and `(10,0)` (edge 1 listed first, so it gets sibling order 1, edge 0 gets
order 0), stroke width 1, curve size 10, zoom 1, no pan: hit-testing the
midline point `(5, 0)` does NOT match `neither edge` — the order-0 parallel
edge is hit-tested as a straight segment between the node centers and the
midline point lies on it, so the hit test returns `some 0`. -/
theorem edge_hit_midline_cex :
    edge_by_screen_pos gC4 1 ⟨0, 0⟩ 3 ⟨5, 0⟩ [((0, 1), [(1, eC4), (0, eC4)])] ≠
      none := by
  rw [edge_map_midline_eval]
  simp

/-- C4 (amended).  In the two-parallel-edge scenario, the pointer on the
straight midline between the nodes matches the order-0 edge (hit-tested as a
straight segment — only the higher-order siblings curve away), while a
pointer on the order-1 curve's flattened polyline within its stroke width
(here the curve apex `(5, 5)`) matches the order-1 edge index, not the
order-0 edge. -/
theorem edge_hit_parallel_spec :
    edge_by_screen_pos gC4 1 ⟨0, 0⟩ 3 ⟨5, 0⟩ [((0, 1), [(1, eC4), (0, eC4)])] =
        some 0 ∧
    edge_by_screen_pos gC4 1 ⟨0, 0⟩ 3 ⟨5, 5⟩ [((0, 1), [(1, eC4), (0, eC4)])] =
        some 1 :=
  ⟨edge_map_midline_eval, edge_map_apex_eval⟩

theorem pointLtWidth_iff_sqrt (d2 w : ℚ) :
    pointLtWidth d2 w = true ↔ Real.sqrt (d2 : ℝ) < (w : ℝ) := by
  unfold pointLtWidth
  rw [decide_eq_true_eq]
  constructor
  · rintro ⟨hw, hlt⟩
    have hw2 : (0 : ℝ) < (w : ℝ) := by exact_mod_cast hw
    rw [Real.sqrt_lt' hw2]
    exact_mod_cast hlt
  · intro hlt
    have hw2 : (0 : ℝ) < (w : ℝ) := lt_of_le_of_lt (Real.sqrt_nonneg _) hlt
    have h2 := (Real.sqrt_lt' hw2).mp hlt
    exact ⟨by exact_mod_cast hw2, by exact_mod_cast h2⟩
